import Mathlib

/-!
A verification development for the batch blog-deletion transaction of the
RyuChan repository (`src/components/write/services/batch-delete.ts`).

The TypeScript function `batchDeleteBlogs` is embedded as a pure Lean
function.  External collaborators (`getAuthToken` and the `github-client`
storage calls) are represented by an environment of predetermined outcomes,
and every external call the function issues is recorded in a trace of
events, in program order.  The GitHub branch pointer is threaded explicitly:
`batchDeleteBlogs` receives the current branch head and returns the branch
head after the run (only a successful reference update moves it).
-/

namespace RyuChan

/-- A tree-mutation entry, mirroring the `TreeItem` objects built in
`batchDeleteBlogs`: a path, a file mode, an object type and an optional
content sha (`none` denotes deletion, as in `sha: null`). -/
structure TreeItem where
  path : String
  mode : String
  type : String
  sha : Option String
deriving Repr, DecidableEq

/-- Modelled from the spec: `listRepoFilesRecursive` lives in
`lib/github-client`, which is not among the sources.  Per §4.1 and §6 it
lists every file path lying under the given root directory at the branch
tip, lazily and possibly empty (directory absence is not an error).  Here
`files` is the full recursive file listing of the repository and the call
returns the paths below `root`. -/
def listRepoFilesRecursive (files : List String) (root : String) : List String :=
  files.filter (fun p => (root ++ "/").data.isPrefixOf p.data)

/-- The media directory for a slug: `public/images/${slug}`. -/
def imagesPath (slug : String) : String := "public/images/" ++ slug

/-- The canonical markdown content entry for a slug. -/
def contentMd (slug : String) : String := "src/content/blog/" ++ slug ++ ".md"

/-- The canonical mdx content entry for a slug. -/
def contentMdx (slug : String) : String := "src/content/blog/" ++ slug ++ ".mdx"

/-- A deletion entry as pushed by `batchDeleteBlogs`:
`{ path, mode: '100644', type: 'blob', sha: null }`. -/
def deleteItem (p : String) : TreeItem := ⟨p, "100644", "blob", none⟩

/-- The tree items contributed by one slug, in push order: one deletion per
discovered media file, then the `.md` and `.mdx` content entries. -/
def slugTreeItems (files : List String) (slug : String) : List TreeItem :=
  (listRepoFilesRecursive files (imagesPath slug)).map deleteItem
    ++ [deleteItem (contentMd slug), deleteItem (contentMdx slug)]

/-- The full `treeItems` array accumulated by the `for (const slug of slugs)`
loop of `batchDeleteBlogs`. -/
def buildTreeItems (files : List String) (slugs : List String) : List TreeItem :=
  (slugs.map (slugTreeItems files)).flatten

/-- The commit message of line 48:
`slugs.length === 1 ? .. : ..`. -/
def commitMessage (slugs : List String) : String :=
  if slugs.length = 1 then "删除文章: " ++ slugs.headD ""
  else "批量删除文章: " ++ toString slugs.length ++ " 篇"

/-- One observable step of `batchDeleteBlogs`: an external call it issues or
a toast notification it emits. -/
inductive Event where
  | authCall : Event
  | getRefCall : String → String → Event
  | listCall : String → List String → Event
  | createTreeCall : List TreeItem → String → Event
  | createCommitCall : String → String → List String → Event
  | updateRefCall : String → String → Event
  | toastInfo : String → Event
  | toastSuccess : String → Event
deriving Repr, DecidableEq

/-- Whether an event is a network call against the storage backend (branch
read, listing, tree creation, commit creation or reference update). -/
def Event.isNetwork : Event → Bool
  | .getRefCall _ _ => true
  | .listCall _ _ => true
  | .createTreeCall _ _ => true
  | .createCommitCall _ _ _ => true
  | .updateRefCall _ _ => true
  | _ => false

/-- Whether an event is a toast notification. -/
def Event.isToast : Event → Bool
  | .toastInfo _ => true
  | .toastSuccess _ => true
  | _ => false

/-- Whether an event is a commit-creation call. -/
def Event.isCreateCommit : Event → Bool
  | .createCommitCall _ _ _ => true
  | _ => false

/-- The distinct failure kinds `batchDeleteBlogs` can surface, one per
rejection point of the pipeline. -/
inductive DeleteError where
  | inputError : DeleteError
  | authError : String → DeleteError
  | treeError : String → DeleteError
  | commitError : String → DeleteError
  | refError : String → DeleteError
deriving Repr, DecidableEq

/-- The predetermined outcomes of the external collaborators for one run:
the configured branch name, the outcome of `getAuthToken`, the repository
file listing backing `listRepoFilesRecursive`, and the outcomes of
`createTree`, `createCommit` and `updateRef`. -/
structure Env where
  branch : String
  authToken : Except String String
  files : List String
  treeSha : Except String String
  commitSha : Except String String
  refUpdate : Except String Unit
deriving Repr

/-- The result of one run: the returned value or error, the ordered trace of
external calls and toasts, and the branch head after the run. -/
structure RunOut where
  result : Except DeleteError Unit
  trace : List Event
  branchHead : String
deriving Repr

/-- The trace of one iteration of the slug loop: the processing toast, then
the recursive media listing. -/
def slugEvents (files : List String) (slug : String) : List Event :=
  [.toastInfo ("正在处理: " ++ slug ++ "..."),
   .listCall (imagesPath slug) (listRepoFilesRecursive files (imagesPath slug))]

/-- The embedding of `batchDeleteBlogs` (batch-delete.ts, lines 6–56).
`head0` is the commit the branch ref points at when the run starts; it is
what `getRef` returns as `refData.sha` (`latestCommitSha`).  Each external
call either succeeds, continuing the pipeline, or rejects, aborting the run
with the corresponding error — exactly the `await`/`throw` behaviour of the
async source. -/
def batchDeleteBlogs (env : Env) (head0 : String) (slugs : List String) : RunOut :=
  if slugs.length = 0 then ⟨.error .inputError, [], head0⟩ else
  match env.authToken with
  | .error e => ⟨.error (.authError e), [.authCall], head0⟩
  | .ok _tok =>
    let pre : List Event :=
      [.authCall, .toastInfo "正在获取分支信息...",
       .getRefCall ("heads/" ++ env.branch) head0]
    let loopTrace := (slugs.map (slugEvents env.files)).flatten
    let items := buildTreeItems env.files slugs
    let t1 := pre ++ loopTrace ++
      [.toastInfo "正在创建文件树...", .createTreeCall items head0]
    match env.treeSha with
    | .error e => ⟨.error (.treeError e), t1, head0⟩
    | .ok tSha =>
      let msg := commitMessage slugs
      let t2 := t1 ++ [.toastInfo "正在创建提交...", .createCommitCall msg tSha [head0]]
      match env.commitSha with
      | .error e => ⟨.error (.commitError e), t2, head0⟩
      | .ok cSha =>
        let t3 := t2 ++ [.toastInfo "正在更新分支...",
                         .updateRefCall ("heads/" ++ env.branch) cSha]
        match env.refUpdate with
        | .error e => ⟨.error (.refError e), t3, head0⟩
        | .ok _ =>
          ⟨.ok (), t3 ++ [.toastSuccess "批量删除成功！请等待页面部署后刷新"], cSha⟩

/-- A branch store for the Reference Advancer: named branch pointers over a
commit graph, the graph given by each commit's parent list. -/
structure BranchStore where
  branches : String → Option String
  parents : String → List String

/-- The outcome of a conditional reference update. -/
inductive AdvanceOutcome where
  | success : AdvanceOutcome
  | conflict : AdvanceOutcome
deriving Repr, DecidableEq

/-- Modelled from the spec: the Reference Advancer — `updateRef` in
`lib/github-client`, which is not among the sources.  Per §4.4 the branch
pointer moves to `newCommit` only if it currently equals `expectedOld`; on
mismatch the call returns a conflict outcome and changes nothing. -/
def advance (s : BranchStore) (branch expectedOld newCommit : String) :
    AdvanceOutcome × BranchStore :=
  if s.branches branch = some expectedOld then
    (.success, ⟨fun b => if b = branch then some newCommit else s.branches b, s.parents⟩)
  else (.conflict, s)

/-- Commit `c` reaches commit `d` by following parent links. -/
inductive Reachable (parents : String → List String) : String → String → Prop
  | refl (c : String) : Reachable parents c c
  | step {a b c : String} : b ∈ parents a → Reachable parents b c → Reachable parents a c

/-- Commit `c` is reachable from the head of `branch` in store `s`. -/
def ReachableFromBranch (s : BranchStore) (branch c : String) : Prop :=
  ∃ h, s.branches branch = some h ∧ Reachable s.parents h c

/-- The toast notifications a successful run emits, in order: the five
stages (branch resolution, one processing toast per slug, tree creation,
commit creation, reference update) and the final success toast. -/
def expectedToasts (slugs : List String) : List Event :=
  [.toastInfo "正在获取分支信息..."]
    ++ slugs.map (fun s => .toastInfo ("正在处理: " ++ s ++ "..."))
    ++ [.toastInfo "正在创建文件树...", .toastInfo "正在创建提交...",
        .toastInfo "正在更新分支...",
        .toastSuccess "批量删除成功！请等待页面部署后刷新"]

/-- A concrete store with one branch `main` at commit `c0`, a parentless
commit. -/
def advStore : BranchStore :=
  ⟨fun b => if b = "main" then some "c0" else none, fun _ => []⟩

/-- A concrete environment in which every external call succeeds and the
repository holds no media files. -/
def envHappy : Env := ⟨"main", .ok "tok", [], .ok "t1", .ok "c1", .ok ()⟩

/-- A concrete environment in which every external call succeeds and the
repository holds one media file for the slug `a`. -/
def envMedia : Env :=
  ⟨"main", .ok "tok", ["public/images/a/img.png"], .ok "t1", .ok "c1", .ok ()⟩

/-- A concrete environment in which credential acquisition rejects. -/
def envAuthFail : Env := ⟨"main", .error "no key", [], .ok "t1", .ok "c1", .ok ()⟩

/-- A concrete environment in which the `createTree` call rejects. -/
def envTreeFail : Env := ⟨"main", .ok "tok", [], .error "boom", .ok "c1", .ok ()⟩

/-! ### Run equations, one per abort point of the pipeline -/

/-- Every event of the slug loop is a processing toast or a listing call. -/
theorem mem_loop_elim {files : List String} {slugs : List String} {e : Event}
    (he : e ∈ (slugs.map (slugEvents files)).flatten) :
    (∃ s, e = Event.toastInfo ("正在处理: " ++ s ++ "...")) ∨
      ∃ p r, e = Event.listCall p r := by
  rw [List.mem_flatten] at he
  obtain ⟨l, hl, hel⟩ := he
  rw [List.mem_map] at hl
  obtain ⟨s, _, rfl⟩ := hl
  simp only [slugEvents, List.mem_cons, List.not_mem_nil, or_false] at hel
  rcases hel with rfl | rfl
  · exact Or.inl ⟨s, rfl⟩
  · exact Or.inr ⟨_, _, rfl⟩

/-- The toast notifications of the slug loop, in order: one per slug. -/
theorem loop_filter_isToast (files : List String) (slugs : List String) :
    ((slugs.map (slugEvents files)).flatten.filter Event.isToast) =
      slugs.map (fun s => Event.toastInfo ("正在处理: " ++ s ++ "...")) := by
  induction slugs with
  | nil => rfl
  | cons s rest ih =>
    simp only [List.map_cons, List.flatten_cons, List.filter_append, ih]
    rfl

/-- The slug loop issues no commit-creation call. -/
theorem loop_filter_isCreateCommit (files : List String) (slugs : List String) :
    ((slugs.map (slugEvents files)).flatten.filter Event.isCreateCommit) = [] := by
  induction slugs with
  | nil => rfl
  | cons s rest ih =>
    simp only [List.map_cons, List.flatten_cons, List.filter_append, ih]
    rfl

/-- Run equation, empty-input abort. -/
theorem run_eq_input (env : Env) (head0 : String) (slugs : List String)
    (hs : slugs.length = 0) :
    batchDeleteBlogs env head0 slugs = ⟨.error .inputError, [], head0⟩ := by
  unfold batchDeleteBlogs
  rw [if_pos hs]

/-- Run equation, credential abort. -/
theorem run_eq_auth (env : Env) (head0 : String) (slugs : List String) (e : String)
    (hs : slugs.length ≠ 0) (ha : env.authToken = .error e) :
    batchDeleteBlogs env head0 slugs =
      ⟨.error (.authError e), [.authCall], head0⟩ := by
  unfold batchDeleteBlogs
  rw [if_neg hs, ha]

/-- Run equation, tree-construction abort. -/
theorem run_eq_treeError (env : Env) (head0 : String) (slugs : List String)
    (tok e : String)
    (hs : slugs.length ≠ 0) (ha : env.authToken = .ok tok)
    (ht : env.treeSha = .error e) :
    batchDeleteBlogs env head0 slugs =
      ⟨.error (.treeError e),
       [.authCall, .toastInfo "正在获取分支信息...",
        .getRefCall ("heads/" ++ env.branch) head0]
         ++ (slugs.map (slugEvents env.files)).flatten
         ++ [.toastInfo "正在创建文件树...",
             .createTreeCall (buildTreeItems env.files slugs) head0],
       head0⟩ := by
  unfold batchDeleteBlogs
  rw [if_neg hs, ha, ht]

/-- Run equation, commit-construction abort. -/
theorem run_eq_commitError (env : Env) (head0 : String) (slugs : List String)
    (tok tSha e : String)
    (hs : slugs.length ≠ 0) (ha : env.authToken = .ok tok)
    (ht : env.treeSha = .ok tSha) (hc : env.commitSha = .error e) :
    batchDeleteBlogs env head0 slugs =
      ⟨.error (.commitError e),
       ([.authCall, .toastInfo "正在获取分支信息...",
         .getRefCall ("heads/" ++ env.branch) head0]
          ++ (slugs.map (slugEvents env.files)).flatten
          ++ [.toastInfo "正在创建文件树...",
              .createTreeCall (buildTreeItems env.files slugs) head0])
         ++ [.toastInfo "正在创建提交...",
             .createCommitCall (commitMessage slugs) tSha [head0]],
       head0⟩ := by
  unfold batchDeleteBlogs
  rw [if_neg hs, ha, ht, hc]

/-- Run equation, reference-update abort. -/
theorem run_eq_refError (env : Env) (head0 : String) (slugs : List String)
    (tok tSha cSha e : String)
    (hs : slugs.length ≠ 0) (ha : env.authToken = .ok tok)
    (ht : env.treeSha = .ok tSha) (hc : env.commitSha = .ok cSha)
    (hu : env.refUpdate = .error e) :
    batchDeleteBlogs env head0 slugs =
      ⟨.error (.refError e),
       (([.authCall, .toastInfo "正在获取分支信息...",
          .getRefCall ("heads/" ++ env.branch) head0]
           ++ (slugs.map (slugEvents env.files)).flatten
           ++ [.toastInfo "正在创建文件树...",
               .createTreeCall (buildTreeItems env.files slugs) head0])
          ++ [.toastInfo "正在创建提交...",
              .createCommitCall (commitMessage slugs) tSha [head0]])
         ++ [.toastInfo "正在更新分支...",
             .updateRefCall ("heads/" ++ env.branch) cSha],
       head0⟩ := by
  unfold batchDeleteBlogs
  rw [if_neg hs, ha, ht, hc, hu]

/-- Run equation, full success. -/
theorem run_eq_success (env : Env) (head0 : String) (slugs : List String)
    (tok tSha cSha : String)
    (hs : slugs.length ≠ 0) (ha : env.authToken = .ok tok)
    (ht : env.treeSha = .ok tSha) (hc : env.commitSha = .ok cSha)
    (hu : env.refUpdate = .ok ()) :
    batchDeleteBlogs env head0 slugs =
      ⟨.ok (),
       ((([.authCall, .toastInfo "正在获取分支信息...",
           .getRefCall ("heads/" ++ env.branch) head0]
            ++ (slugs.map (slugEvents env.files)).flatten
            ++ [.toastInfo "正在创建文件树...",
                .createTreeCall (buildTreeItems env.files slugs) head0])
           ++ [.toastInfo "正在创建提交...",
               .createCommitCall (commitMessage slugs) tSha [head0]])
          ++ [.toastInfo "正在更新分支...",
              .updateRefCall ("heads/" ++ env.branch) cSha])
         ++ [.toastSuccess "批量删除成功！请等待页面部署后刷新"],
       cSha⟩ := by
  unfold batchDeleteBlogs
  rw [if_neg hs, ha, ht, hc, hu]

/-- A run returns success only if every external call succeeded and the slug
list was non-empty. -/
theorem success_inversion (env : Env) (head0 : String) (slugs : List String)
    (h : (batchDeleteBlogs env head0 slugs).result = .ok ()) :
    slugs.length ≠ 0 ∧ (∃ tok, env.authToken = .ok tok) ∧
    (∃ tSha, env.treeSha = .ok tSha) ∧ (∃ cSha, env.commitSha = .ok cSha) ∧
    env.refUpdate = .ok () := by
  by_cases hs : slugs.length = 0
  · rw [run_eq_input env head0 slugs hs] at h
    simp at h
  · cases ha : env.authToken with
    | error e =>
      rw [run_eq_auth env head0 slugs e hs ha] at h
      simp at h
    | ok tok =>
      cases ht : env.treeSha with
      | error e =>
        rw [run_eq_treeError env head0 slugs tok e hs ha ht] at h
        simp at h
      | ok tSha =>
        cases hc : env.commitSha with
        | error e =>
          rw [run_eq_commitError env head0 slugs tok tSha e hs ha ht hc] at h
          simp at h
        | ok cSha =>
          cases hu : env.refUpdate with
          | error e =>
            rw [run_eq_refError env head0 slugs tok tSha cSha e hs ha ht hc hu] at h
            simp at h
          | ok u =>
            cases u
            exact ⟨hs, ⟨tok, rfl⟩, ⟨tSha, rfl⟩, ⟨cSha, rfl⟩, rfl⟩

/-! ### Claims -/

/-- Claim C4: for the empty slug list, `batchDeleteBlogs` rejects with an
input error before issuing any call: the result is the input error, the
trace is empty — no branch read, no listing, no tree, commit or
reference-update call — and the branch head is untouched. -/
theorem batchDelete_empty_rejects (env : Env) (head0 : String) :
    batchDeleteBlogs env head0 [] = ⟨.error .inputError, [], head0⟩ :=
  run_eq_input env head0 [] rfl

/-- Claim C9: when no credential is available (`getAuthToken` rejects), the
batch aborts with an auth error before resolution: the trace consists of the
credential acquisition alone, so every event of the run is a non-network
event and the branch head is untouched. -/
theorem batchDelete_auth_failure_no_network (env : Env) (head0 : String)
    (slugs : List String) (e : String)
    (hs : slugs.length ≠ 0) (ha : env.authToken = .error e) :
    (batchDeleteBlogs env head0 slugs).result = .error (.authError e) ∧
    (batchDeleteBlogs env head0 slugs).branchHead = head0 ∧
    ∀ ev ∈ (batchDeleteBlogs env head0 slugs).trace, ev.isNetwork = false := by
  rw [run_eq_auth env head0 slugs e hs ha]
  refine ⟨rfl, rfl, ?_⟩
  intro ev hev
  simp only [List.mem_singleton] at hev
  subst hev
  rfl

/-- Witness for claim C9 at a concrete failing credential. -/
theorem batchDelete_auth_failure_no_network_witness :
    (batchDeleteBlogs envAuthFail "h0" ["a"]).result = .error (.authError "no key") ∧
    (batchDeleteBlogs envAuthFail "h0" ["a"]).branchHead = "h0" ∧
    ∀ ev ∈ (batchDeleteBlogs envAuthFail "h0" ["a"]).trace, ev.isNetwork = false :=
  batchDelete_auth_failure_no_network envAuthFail "h0" ["a"] "no key" (by decide) rfl

/-- Claim C3: whenever the run fails with a tree-construction or
commit-construction error (the `createTree` or `createCommit` call
rejected), no reference-update call appears anywhere in the trace and the
branch head is exactly the one the run started from. -/
theorem batchDelete_construction_failure_branch_untouched
    (env : Env) (head0 : String) (slugs : List String) (e : String)
    (hf : (batchDeleteBlogs env head0 slugs).result = .error (.treeError e) ∨
          (batchDeleteBlogs env head0 slugs).result = .error (.commitError e)) :
    (∀ r c, Event.updateRefCall r c ∉ (batchDeleteBlogs env head0 slugs).trace) ∧
    (batchDeleteBlogs env head0 slugs).branchHead = head0 := by
  by_cases hs : slugs.length = 0
  · rw [run_eq_input env head0 slugs hs] at hf ⊢
    exact ⟨fun r c hmem => by simp at hmem, rfl⟩
  · cases ha : env.authToken with
    | error e₀ =>
      rw [run_eq_auth env head0 slugs e₀ hs ha] at hf ⊢
      exact ⟨fun r c hmem => by simp at hmem, rfl⟩
    | ok tok =>
      cases ht : env.treeSha with
      | error e₀ =>
        rw [run_eq_treeError env head0 slugs tok e₀ hs ha ht]
        refine ⟨?_, rfl⟩
        intro r c hmem
        simp only [List.append_assoc, List.mem_append, List.mem_cons,
          List.not_mem_nil, or_false, reduceCtorEq, false_or] at hmem
        rcases mem_loop_elim hmem with ⟨s, h⟩ | ⟨p, res, h⟩ <;> exact Event.noConfusion h
      | ok tSha =>
        cases hc : env.commitSha with
        | error e₀ =>
          rw [run_eq_commitError env head0 slugs tok tSha e₀ hs ha ht hc]
          refine ⟨?_, rfl⟩
          intro r c hmem
          simp only [List.append_assoc, List.mem_append, List.mem_cons,
            List.not_mem_nil, or_false, reduceCtorEq, false_or] at hmem
          rcases mem_loop_elim hmem with ⟨s, h⟩ | ⟨p, res, h⟩ <;> exact Event.noConfusion h
        | ok cSha =>
          cases hu : env.refUpdate with
          | error e₀ =>
            rw [run_eq_refError env head0 slugs tok tSha cSha e₀ hs ha ht hc hu] at hf
            simp at hf
          | ok u =>
            cases u
            rw [run_eq_success env head0 slugs tok tSha cSha hs ha ht hc hu] at hf
            simp at hf

/-- Witness for claim C3 at a concrete rejecting `createTree`. -/
theorem batchDelete_construction_failure_branch_untouched_witness :
    (∀ r c, Event.updateRefCall r c ∉ (batchDeleteBlogs envTreeFail "h0" ["a"]).trace) ∧
    (batchDeleteBlogs envTreeFail "h0" ["a"]).branchHead = "h0" :=
  batchDelete_construction_failure_branch_untouched envTreeFail "h0" ["a"] "boom"
    (Or.inl rfl)

/-- Claim C2: the reference advance is conditional.  If the branch currently
points at `actual` and `expectedOld` differs from it, `advance` returns the
conflict outcome, leaves the store — in particular the branch pointer —
unchanged, and a `newCommit` that was unreachable from the branch stays
unreachable from it. -/
theorem advance_conflict_on_mismatch (s : BranchStore)
    (branch expectedOld newCommit actual : String)
    (hb : s.branches branch = some actual) (hne : expectedOld ≠ actual) :
    (advance s branch expectedOld newCommit).1 = .conflict ∧
    (advance s branch expectedOld newCommit).2 = s ∧
    (¬ ReachableFromBranch s branch newCommit →
      ¬ ReachableFromBranch (advance s branch expectedOld newCommit).2 branch newCommit) := by
  have hcond : ¬ s.branches branch = some expectedOld := by
    rw [hb]
    intro hcontra
    exact hne (Option.some.inj hcontra).symm
  unfold advance
  rw [if_neg hcond]
  exact ⟨rfl, rfl, fun h => h⟩

/-- Witness for claim C2 at a concrete store and a mismatched expected
commit. -/
theorem advance_conflict_on_mismatch_witness :
    (advance advStore "main" "cX" "c1").1 = .conflict ∧
    (advance advStore "main" "cX" "c1").2 = advStore ∧
    (¬ ReachableFromBranch advStore "main" "c1" →
      ¬ ReachableFromBranch (advance advStore "main" "cX" "c1").2 "main" "c1") :=
  advance_conflict_on_mismatch advStore "main" "cX" "c1" "c0" (by decide) (by decide)

/-- Every tree-creation call in a trace carries the accumulated tree items
and the branch head read at the start of the run as its base. -/
theorem tree_call_shape (env : Env) (head0 : String) (slugs : List String)
    (items : List TreeItem) (base : String)
    (hmem : Event.createTreeCall items base ∈ (batchDeleteBlogs env head0 slugs).trace) :
    items = buildTreeItems env.files slugs ∧ base = head0 := by
  by_cases hs : slugs.length = 0
  · rw [run_eq_input env head0 slugs hs] at hmem
    simp at hmem
  · cases ha : env.authToken with
    | error e =>
      rw [run_eq_auth env head0 slugs e hs ha] at hmem
      simp at hmem
    | ok tok =>
      cases ht : env.treeSha with
      | error e =>
        rw [run_eq_treeError env head0 slugs tok e hs ha ht] at hmem
        simp only [List.append_assoc, List.mem_append, List.mem_cons, List.not_mem_nil,
          or_false, reduceCtorEq, false_or, Event.createTreeCall.injEq] at hmem
        rcases hmem with hmem | hmem
        · rcases mem_loop_elim hmem with ⟨s, h⟩ | ⟨p, res, h⟩ <;> exact Event.noConfusion h
        · exact hmem
      | ok tSha =>
        cases hc : env.commitSha with
        | error e =>
          rw [run_eq_commitError env head0 slugs tok tSha e hs ha ht hc] at hmem
          simp only [List.append_assoc, List.mem_append, List.mem_cons, List.not_mem_nil,
            or_false, reduceCtorEq, false_or, Event.createTreeCall.injEq] at hmem
          rcases hmem with hmem | hmem
          · rcases mem_loop_elim hmem with ⟨s, h⟩ | ⟨p, res, h⟩ <;> exact Event.noConfusion h
          · exact hmem
        | ok cSha =>
          cases hu : env.refUpdate with
          | error e =>
            rw [run_eq_refError env head0 slugs tok tSha cSha e hs ha ht hc hu] at hmem
            simp only [List.append_assoc, List.mem_append, List.mem_cons, List.not_mem_nil,
              or_false, reduceCtorEq, false_or, Event.createTreeCall.injEq] at hmem
            rcases hmem with hmem | hmem
            · rcases mem_loop_elim hmem with ⟨s, h⟩ | ⟨p, res, h⟩ <;> exact Event.noConfusion h
            · exact hmem
          | ok u =>
            cases u
            rw [run_eq_success env head0 slugs tok tSha cSha hs ha ht hc hu] at hmem
            simp only [List.append_assoc, List.mem_append, List.mem_cons, List.not_mem_nil,
              or_false, reduceCtorEq, false_or, Event.createTreeCall.injEq] at hmem
            rcases hmem with hmem | hmem
            · rcases mem_loop_elim hmem with ⟨s, h⟩ | ⟨p, res, h⟩ <;> exact Event.noConfusion h
            · exact hmem

/-- Every commit-creation call in a trace carries the policy message, the
tree sha returned by `createTree`, and the branch head read at the start of
the run as its sole parent. -/
theorem commit_call_shape (env : Env) (head0 : String) (slugs : List String)
    (m t : String) (ps : List String)
    (hmem : Event.createCommitCall m t ps ∈ (batchDeleteBlogs env head0 slugs).trace) :
    m = commitMessage slugs ∧ ps = [head0] := by
  by_cases hs : slugs.length = 0
  · rw [run_eq_input env head0 slugs hs] at hmem
    simp at hmem
  · cases ha : env.authToken with
    | error e =>
      rw [run_eq_auth env head0 slugs e hs ha] at hmem
      simp at hmem
    | ok tok =>
      cases ht : env.treeSha with
      | error e =>
        rw [run_eq_treeError env head0 slugs tok e hs ha ht] at hmem
        simp only [List.append_assoc, List.mem_append, List.mem_cons, List.not_mem_nil,
          or_false, reduceCtorEq, false_or] at hmem
        rcases mem_loop_elim hmem with ⟨s, h⟩ | ⟨p, res, h⟩ <;> exact Event.noConfusion h
      | ok tSha =>
        cases hc : env.commitSha with
        | error e =>
          rw [run_eq_commitError env head0 slugs tok tSha e hs ha ht hc] at hmem
          simp only [List.append_assoc, List.mem_append, List.mem_cons, List.not_mem_nil,
            or_false, reduceCtorEq, false_or, Event.createCommitCall.injEq] at hmem
          rcases hmem with hmem | hmem
          · rcases mem_loop_elim hmem with ⟨s, h⟩ | ⟨p, res, h⟩ <;> exact Event.noConfusion h
          · exact ⟨hmem.1, hmem.2.2⟩
        | ok cSha =>
          cases hu : env.refUpdate with
          | error e =>
            rw [run_eq_refError env head0 slugs tok tSha cSha e hs ha ht hc hu] at hmem
            simp only [List.append_assoc, List.mem_append, List.mem_cons, List.not_mem_nil,
              or_false, reduceCtorEq, false_or, Event.createCommitCall.injEq] at hmem
            rcases hmem with hmem | hmem
            · rcases mem_loop_elim hmem with ⟨s, h⟩ | ⟨p, res, h⟩ <;> exact Event.noConfusion h
            · exact ⟨hmem.1, hmem.2.2⟩
          | ok u =>
            cases u
            rw [run_eq_success env head0 slugs tok tSha cSha hs ha ht hc hu] at hmem
            simp only [List.append_assoc, List.mem_append, List.mem_cons, List.not_mem_nil,
              or_false, reduceCtorEq, false_or, Event.createCommitCall.injEq] at hmem
            rcases hmem with hmem | hmem
            · rcases mem_loop_elim hmem with ⟨s, h⟩ | ⟨p, res, h⟩ <;> exact Event.noConfusion h
            · exact ⟨hmem.1, hmem.2.2⟩

/-- Claim C6: a successful run creates exactly one commit — the trace holds
exactly one commit-creation call — and its parent list is exactly the base
commit read from the branch head at the start of the run. -/
theorem batchDelete_single_commit_sole_parent (env : Env) (head0 : String)
    (slugs : List String)
    (h : (batchDeleteBlogs env head0 slugs).result = .ok ()) :
    ∃ tSha, (batchDeleteBlogs env head0 slugs).trace.filter Event.isCreateCommit =
      [.createCommitCall (commitMessage slugs) tSha [head0]] := by
  obtain ⟨hs, ⟨tok, ha⟩, ⟨tSha, ht⟩, ⟨cSha, hc⟩, hu⟩ := success_inversion env head0 slugs h
  refine ⟨tSha, ?_⟩
  rw [run_eq_success env head0 slugs tok tSha cSha hs ha ht hc hu]
  simp only [List.filter_append, loop_filter_isCreateCommit]
  rfl

/-- Witness for claim C6 at a concrete successful run. -/
theorem batchDelete_single_commit_sole_parent_witness :
    ∃ tSha, (batchDeleteBlogs envHappy "h0" ["a"]).trace.filter Event.isCreateCommit =
      [.createCommitCall (commitMessage ["a"]) tSha ["h0"]] :=
  batchDelete_single_commit_sole_parent envHappy "h0" ["a"] rfl

/-- Claim C7: every commit-creation call the run issues carries the
count-policy message — the singular form naming the slug when the slug list
has exactly one element, the aggregate count form when it has more than
one. -/
theorem batchDelete_message_policy (env : Env) (head0 : String)
    (slugs : List String) (m t : String) (ps : List String)
    (hmem : Event.createCommitCall m t ps ∈ (batchDeleteBlogs env head0 slugs).trace) :
    (slugs.length = 1 → m = "删除文章: " ++ slugs.headD "") ∧
    (1 < slugs.length → m = "批量删除文章: " ++ toString slugs.length ++ " 篇") := by
  obtain ⟨hm, -⟩ := commit_call_shape env head0 slugs m t ps hmem
  subst hm
  constructor
  · intro h1
    unfold commitMessage
    rw [if_pos h1]
  · intro hgt
    unfold commitMessage
    rw [if_neg (Nat.ne_of_gt hgt)]

/-- Witness for claim C7 at concrete single-slug and two-slug runs. -/
theorem batchDelete_message_policy_witness :
    ((["a"] : List String).length = 1 →
      commitMessage ["a"] = "删除文章: " ++ (["a"] : List String).headD "") ∧
    (1 < (["a"] : List String).length →
      commitMessage ["a"] = "批量删除文章: " ++ toString (["a"] : List String).length ++ " 篇") :=
  batchDelete_message_policy envHappy "h0" ["a"] (commitMessage ["a"]) "t1" ["h0"]
    (by decide)

/-- Claim C10: within one run the tree base and the commit parent agree —
any tree-creation call in the trace uses the branch head read at the start
as its base, and any commit-creation call in the same trace lists exactly
that base as its sole parent. -/
theorem batchDelete_base_equals_parent (env : Env) (head0 : String)
    (slugs : List String) (items : List TreeItem) (base m t : String) (ps : List String)
    (h1 : Event.createTreeCall items base ∈ (batchDeleteBlogs env head0 slugs).trace)
    (h2 : Event.createCommitCall m t ps ∈ (batchDeleteBlogs env head0 slugs).trace) :
    base = head0 ∧ ps = [base] := by
  obtain ⟨-, hbase⟩ := tree_call_shape env head0 slugs items base h1
  obtain ⟨-, hps⟩ := commit_call_shape env head0 slugs m t ps h2
  subst hbase
  exact ⟨rfl, hps⟩

/-- Witness for claim C10 at a concrete successful run. -/
theorem batchDelete_base_equals_parent_witness :
    ("h0" : String) = "h0" ∧ (["h0"] : List String) = ["h0"] :=
  batchDelete_base_equals_parent envHappy "h0" ["a"] (buildTreeItems [] ["a"]) "h0"
    (commitMessage ["a"]) "t1" ["h0"] (by decide) (by decide)

/-- A success toast in the trace means the run returned success. -/
theorem toastSuccess_mem_imp_ok (env : Env) (head0 : String) (slugs : List String)
    (msg : String)
    (hmem : Event.toastSuccess msg ∈ (batchDeleteBlogs env head0 slugs).trace) :
    (batchDeleteBlogs env head0 slugs).result = .ok () := by
  by_cases hs : slugs.length = 0
  · rw [run_eq_input env head0 slugs hs] at hmem
    simp at hmem
  · cases ha : env.authToken with
    | error e =>
      rw [run_eq_auth env head0 slugs e hs ha] at hmem
      simp at hmem
    | ok tok =>
      cases ht : env.treeSha with
      | error e =>
        rw [run_eq_treeError env head0 slugs tok e hs ha ht] at hmem
        simp only [List.append_assoc, List.mem_append, List.mem_cons, List.not_mem_nil,
          or_false, reduceCtorEq, false_or] at hmem
        rcases mem_loop_elim hmem with ⟨s, h⟩ | ⟨p, res, h⟩ <;> exact Event.noConfusion h
      | ok tSha =>
        cases hc : env.commitSha with
        | error e =>
          rw [run_eq_commitError env head0 slugs tok tSha e hs ha ht hc] at hmem
          simp only [List.append_assoc, List.mem_append, List.mem_cons, List.not_mem_nil,
            or_false, reduceCtorEq, false_or] at hmem
          rcases mem_loop_elim hmem with ⟨s, h⟩ | ⟨p, res, h⟩ <;> exact Event.noConfusion h
        | ok cSha =>
          cases hu : env.refUpdate with
          | error e =>
            rw [run_eq_refError env head0 slugs tok tSha cSha e hs ha ht hc hu] at hmem
            simp only [List.append_assoc, List.mem_append, List.mem_cons, List.not_mem_nil,
              or_false, reduceCtorEq, false_or] at hmem
            rcases mem_loop_elim hmem with ⟨s, h⟩ | ⟨p, res, h⟩ <;> exact Event.noConfusion h
          | ok u =>
            cases u
            rw [run_eq_success env head0 slugs tok tSha cSha hs ha ht hc hu]

/-- Claim C8: on success the toast notifications of the run are exactly the
stage notifications in order — branch resolution, one processing toast per
slug, tree creation, commit creation, reference update — followed by the
final success toast; on failure no success toast is emitted. -/
theorem batchDelete_progress_toasts (env : Env) (head0 : String) (slugs : List String) :
    ((batchDeleteBlogs env head0 slugs).result = .ok () →
      (batchDeleteBlogs env head0 slugs).trace.filter Event.isToast = expectedToasts slugs) ∧
    (∀ err, (batchDeleteBlogs env head0 slugs).result = .error err →
      ∀ msg, Event.toastSuccess msg ∉ (batchDeleteBlogs env head0 slugs).trace) := by
  constructor
  · intro h
    obtain ⟨hs, ⟨tok, ha⟩, ⟨tSha, ht⟩, ⟨cSha, hc⟩, hu⟩ := success_inversion env head0 slugs h
    rw [run_eq_success env head0 slugs tok tSha cSha hs ha ht hc hu]
    simp only [List.filter_append, loop_filter_isToast, expectedToasts, List.append_assoc]
    rfl
  · intro err herr msg hmem
    rw [toastSuccess_mem_imp_ok env head0 slugs msg hmem] at herr
    exact Except.noConfusion herr

/-- Witness for claim C8: a concrete successful run emits exactly the staged
toasts, and a concrete failing run emits no success toast. -/
theorem batchDelete_progress_toasts_witness :
    (batchDeleteBlogs envHappy "h0" ["a"]).trace.filter Event.isToast = expectedToasts ["a"] ∧
    ∀ msg, Event.toastSuccess msg ∉ (batchDeleteBlogs envTreeFail "h0" ["a"]).trace :=
  ⟨(batchDelete_progress_toasts envHappy "h0" ["a"]).1 rfl,
   fun msg =>
     (batchDelete_progress_toasts envTreeFail "h0" ["a"]).2 (.treeError "boom") rfl msg⟩

/-- Claim C1, failing input: with a repeated slug the mutation set sent to
`createTree` holds duplicate paths — the run issues a tree-creation call
whose items repeat both canonical content paths for `a`, violating the
duplicate-free invariant of the MutationSet. -/
theorem batchDelete_duplicate_paths :
    Event.createTreeCall (buildTreeItems [] ["a", "a"]) "h0"
        ∈ (batchDeleteBlogs envHappy "h0" ["a", "a"]).trace ∧
    (buildTreeItems [] ["a", "a"]).map TreeItem.path =
      ["src/content/blog/a.md", "src/content/blog/a.mdx",
       "src/content/blog/a.md", "src/content/blog/a.mdx"] ∧
    ¬ ((buildTreeItems [] ["a", "a"]).map TreeItem.path).Nodup := by
  refine ⟨by decide, rfl, by decide⟩

/-- Claim C5, failing input: on a successful single-slug run the full trace
shows a media-listing network call strictly between the branch-head read and
the tree-creation call, so the base reference is not re-read immediately
before commit construction. -/
theorem batchDelete_listing_after_refRead :
    (batchDeleteBlogs envMedia "h0" ["a"]).trace =
      [.authCall, .toastInfo "正在获取分支信息...", .getRefCall "heads/main" "h0",
       .toastInfo "正在处理: a...", .listCall "public/images/a" ["public/images/a/img.png"],
       .toastInfo "正在创建文件树...",
       .createTreeCall
         [deleteItem "public/images/a/img.png",
          deleteItem "src/content/blog/a.md", deleteItem "src/content/blog/a.mdx"] "h0",
       .toastInfo "正在创建提交...",
       .createCommitCall "删除文章: a" "t1" ["h0"],
       .toastInfo "正在更新分支...", .updateRefCall "heads/main" "c1",
       .toastSuccess "批量删除成功！请等待页面部署后刷新"] := by
  decide

end RyuChan
